import Mathlib

/-!
Verification of the policy-distillation agent
(rl_algorithms/distillation/dqn_agent.py from medipixel/rl_baselines).

The Python class DistillationDQN is shallowly embedded below.  Pure control
flow (the collection loop of the _test method, the student branch of train,
the _initialize mode dispatch, select_action and step) is translated directly
from the source.  External collaborators that are not part of this file of the
repository (the DistillationBuffer, the base DQNAgent, the gym environment,
the torch optimizer and the filesystem) are modelled from the specification by
their visible effects: the buffer is an append-only store whose fill level idx
advances by one per add, reset_dataloader and save_params are recorded as
events, and a written file is an entry of an association list keyed by file
name.  Floating-point tensor arithmetic (softmax, log-softmax, KL divergence)
is modelled over the real numbers.
-/

namespace Distillation

/-! ### Collection run (the non-teacher branch of _test) -/

/-- Modelled from the spec: the observable state of a collection run.  idx is
the Distillation Buffer fill level, samples the number of Transition Samples
appended by DistillationBuffer.add (the spec makes add append exactly one
sample and advance idx by one), resets the number of env.reset calls. -/
structure CollectState where
  idx : Nat
  samples : Nat
  resets : Nat

/-- The inner while-loop of _test in collection mode:
while not done and self.memory.idx != self.hyper_params.buffer_size.
l is the number of environment steps remaining until done; each iteration
takes one environment step and appends one Transition Sample. -/
def collectEpisode (B : Nat) : Nat → CollectState → CollectState
  | 0, s => s
  | l + 1, s =>
    if s.idx = B then s
    else collectEpisode B l { s with idx := s.idx + 1, samples := s.samples + 1 }

/-- The episode loop of _test in collection mode: each configured episode
resets the environment, runs the inner loop, and the loop body breaks out of
the whole run once self.memory.idx == self.hyper_params.buffer_size. -/
def collectEpisodes (B : Nat) : List Nat → CollectState → CollectState
  | [], s => s
  | l :: ls, s =>
    let s1 := collectEpisode B l { s with resets := s.resets + 1 }
    if s1.idx = B then s1 else collectEpisodes B ls s1

/-- A full collection run over episodes of intrinsic lengths epLens with
buffer capacity B, starting from an empty buffer. -/
def collectRun (epLens : List Nat) (B : Nat) : CollectState :=
  collectEpisodes B epLens { idx := 0, samples := 0, resets := 0 }

/-! ### Student training loop (the student branch of train) -/

/-- Trace of the observable events of the student branch of train: the number
of reset_dataloader calls, the list of step indices passed to
learner.save_params, and the number of update_distillation calls. -/
structure TrainTrace where
  resets : Nat
  checkpoints : List Nat
  updates : Nat
deriving DecidableEq

/-- One iteration of the for-steps-in-range(train_steps) loop body of train:
one update_distillation call, then, when steps % iter_1 == 0, one
save_params(steps) followed by one reset_dataloader(). -/
def trainStepFold (iter1 : Nat) (tr : TrainTrace) (s : Nat) : TrainTrace :=
  let tr1 : TrainTrace := { tr with updates := tr.updates + 1 }
  if s % iter1 = 0 then
    { tr1 with checkpoints := tr1.checkpoints ++ [s], resets := tr1.resets + 1 }
  else tr1

/-- The student branch of train.  bufferSize is the Distillation Buffer size
(modelled from the spec: self.memory.buffer_size, the number of stored
Transition Samples).  The run raises instead of completing (result none) when
batch_size is zero (ZeroDivisionError at the floor division), when the assert
buffer_size >= batch_size fails, or when train_steps = 0 and the final
save_params(steps) hits an unbound loop variable. -/
def studentTrainLoop (bufferSize batchSize epochs : Nat) : Option TrainTrace :=
  if batchSize = 0 then none
  else if bufferSize < batchSize then none
  else
    let iter1 := bufferSize / batchSize
    let T := iter1 * epochs
    if T = 0 then none
    else
      let tr := (List.range T).foldl (trainStepFold iter1)
        { resets := 1, checkpoints := [], updates := 0 }
      some { tr with checkpoints := tr.checkpoints ++ [T - 1] }

/-! ### Mode dispatch of _initialize -/

/-- The mode flags and the buffer-path override of self.args. -/
structure DistillArgs where
  teacher : Bool
  student : Bool
  add_expert_q : Bool
  test : Bool
  distillation_buffer_path : Option String

/-- The Python boolean sum
self.args.teacher + self.args.student + self.args.add_expert_q + self.args.test. -/
def modeCount (a : DistillArgs) : Nat :=
  (cond a.teacher 1 0) + (cond a.student 1 0) + (cond a.add_expert_q 1 0) +
    (cond a.test 1 0)

/-- Mode-specific resources wired up by _initialize on success.  tau is
self.softmax_tau; 0.01 is modelled as the exact rational 1/100. -/
structure InitEffects where
  tau : Option ℚ
  bufferPath : Option String
  saveDistillationDir : Option String
  saveCount : Option Nat

/-- DistillationDQN._initialize.  The first component logs every directory
created (os.makedirs / os.mkdir), in program order; the assert on the mode
flags executes before any of them.  build_learner, the DistillationBuffer
constructor and DQNAgent._initialize are external collaborators modelled from
the spec by their visible effects only. -/
def initDistillation (a : DistillArgs)
    (hyperBufferPath defaultTestPath teacherDumpDir : String) :
    List String × Except Unit InitEffects :=
  if modeCount a ≠ 1 then ([], Except.error ())
  else if a.student || a.test then
    if a.student then
      ([], Except.ok { tau := some (1 / 100), bufferPath := some hyperBufferPath,
                       saveDistillationDir := none, saveCount := none })
    else
      let bp : String :=
        match a.distillation_buffer_path with
        | some p => "./" ++ p
        | none => defaultTestPath
      ([bp], Except.ok { tau := some (1 / 100), bufferPath := some bp,
                         saveDistillationDir := none, saveCount := none })
  else
    ([teacherDumpDir],
     Except.ok { tau := none, bufferPath := none,
                 saveDistillationDir := some teacherDumpDir, saveCount := some 0 })

/-! ### select_action and step -/

/-- The per-call state of a DistillationDQN agent, with the environment and
the base DQNAgent modelled from the spec as opaque functions.  S states,
Q q-value vectors, A actions, E environment states, I info dicts, R rewards. -/
structure DistAgent (S Q A E I R : Type) where
  teacher : Bool
  student : Bool
  test : Bool
  curr_state : S
  preprocessState : S → S
  dqnNet : S → Q
  argmaxQ : Q → A
  sampleAction : A
  baseSelect : S → A
  envState : E
  envStepF : E → A → E × (S × R × Bool × I)
  baseStepF : E → A → E × (S × R × Bool × I)
  memory : List (S × Q)
  i_episode : Nat
  save_count : Nat
  rawSaved : List (Nat × Nat × S)
  tau : ℚ

/-- Return value of select_action: the teacher branch returns a bare action,
the non-teacher branch returns the action together with the detached
q-value vector. -/
inductive SelectOut (A Q : Type) where
  | actOnly (a : A)
  | withQ (a : A) (q : Q)
deriving DecidableEq

/-- DistillationDQN.select_action.  exploreDraw models the outcome of the
comparison self.epsilon > np.random.random(); in the teacher training pass the
current raw state is persisted as file save_count.pkl under the i_episode
directory and the save counter advances. -/
def selectActionD {S Q A E I R : Type} (ag : DistAgent S Q A E I R) (state : S)
    (isTest : Bool) (exploreDraw : Bool) :
    DistAgent S Q A E I R × SelectOut A Q :=
  if ag.teacher then
    if isTest then (ag, SelectOut.actOnly (ag.baseSelect state))
    else
      ({ ag with save_count := ag.save_count + 1,
                 rawSaved := ag.rawSaved ++ [(ag.i_episode, ag.save_count, state)] },
       SelectOut.actOnly (ag.baseSelect state))
  else
    let q := ag.dqnNet (ag.preprocessState state)
    let act := if !ag.test && exploreDraw then ag.sampleAction else ag.argmaxQ q
    ({ ag with curr_state := state }, SelectOut.withQ act q)

/-- DistillationDQN.step.  In the pure collection configuration
(test and not teacher and not student) the environment is stepped, the pair
(self.curr_state, q_values) is appended to the Distillation Buffer and the
environment transition tuple is returned unchanged; otherwise the call
delegates to DQNAgent.step, which per the spec has no buffer interaction. -/
def stepD {S Q A E I R : Type} (ag : DistAgent S Q A E I R) (action : A) (q : Q) :
    DistAgent S Q A E I R × (S × R × Bool × I) :=
  if ag.test && !ag.teacher && !ag.student then
    let r := ag.envStepF ag.envState action
    ({ ag with envState := r.1, memory := ag.memory ++ [(ag.curr_state, q)] }, r.2)
  else
    let r := ag.baseStepF ag.envState action
    ({ ag with envState := r.1 }, r.2)

/-! ### Expert-Q augmentation pass (the add_expert_q branch of train) -/

/-- Modelled from the spec: writing one file into the flat output directory.
The directory is an association list keyed by base file name; writing an
existing name overwrites its content, a fresh name is appended. -/
def writeFile {N C : Type} [DecidableEq N] (fs : List (N × C)) (n : N) (c : C) :
    List (N × C) :=
  if n ∈ fs.map Prod.fst then
    fs.map (fun p => if p.1 = n then (n, c) else p)
  else fs ++ [(n, c)]

/-- The enumeration of Raw State Records in the add_expert_q branch of train:
for each configured source root, for each of its per-episode subdirectories,
every contained file, flattened in order into file_name_list.  Only the base
file name (the second component of each file_name_list entry) and the stored
state matter downstream. -/
def enumerateRecords {N St : Type} (roots : List (List (List (N × St)))) :
    List (N × St) :=
  roots.flatMap (fun subdirs => subdirs.flatMap (fun files => files))

/-- The write loop of the add_expert_q branch of train: each input state is
relabelled with the teacher network output dqn applied to it and written to
the flat output directory under its base file name. -/
def augmentPass {N St Qv : Type} [DecidableEq N] (dqn : St → Qv)
    (inputs : List (N × St)) : List (N × (St × Qv)) :=
  inputs.foldl (fun fs p => writeFile fs p.1 (p.2, dqn p.2)) []

/-! ### Distillation loss (update_distillation), over the reals -/

/-- torch.nn.functional.softmax along a row, modelled over ℝ. -/
noncomputable def softmaxList (l : List ℝ) : List ℝ :=
  l.map (fun x => Real.exp x / (l.map Real.exp).sum)

/-- torch.nn.functional.log_softmax along a row, modelled over ℝ. -/
noncomputable def logSoftmaxList (l : List ℝ) : List ℝ :=
  l.map (fun x => x - Real.log ((l.map Real.exp).sum))

/-- torch.nn.functional.kl_div with reduction sum: the input is in log space
and each element contributes target * (log target - input); all elements of
the batch are summed. -/
noncomputable def klDivSum (inp tgt : List (List ℝ)) : ℝ :=
  (List.zipWith
    (fun ir tr => (List.zipWith (fun i t => t * (Real.log t - i)) ir tr).sum)
    inp tgt).sum

/-- The target of update_distillation:
F.softmax(q_values / self.softmax_tau, dim=1), row by row. -/
noncomputable def distillTarget (tau : ℝ) (qvalues : List (List ℝ)) :
    List (List ℝ) :=
  qvalues.map (fun row => softmaxList (row.map (fun x => x / tau)))

/-- torch.Tensor.mean over all elements of a batch of rows. -/
noncomputable def matMean (m : List (List ℝ)) : ℝ :=
  (m.map List.sum).sum / ((m.map List.length).sum : ℕ)

/-- The loss computed by update_distillation as a function of the predicted
q-values, the buffered teacher q-values and the temperature. -/
noncomputable def distillLoss (pred qvalues : List (List ℝ)) (tau : ℝ) : ℝ :=
  klDivSum (pred.map logSoftmaxList) (distillTarget tau qvalues)

/-- The learner-side state touched by update_distillation: the student
network parameters, the count of optimizer steps taken, and the temperature. -/
structure StudentState (P : Type) where
  params : P
  optimSteps : Nat
  tau : ℚ

/-- DistillationDQN.update_distillation.  dqnNet is self.learner.dqn applied
to a batch of (already preprocessed) states, optimStep the effect on the
parameters of one loss.backward() plus dqn_optim.step() after zero_grad; the
teacher-side target is built from the buffered q_values alone.  Returns
(loss.item(), pred_q.mean().item()) and the updated learner state. -/
noncomputable def updateDistillation {P : Type}
    (dqnNet : P → List (List ℝ) → List (List ℝ)) (optimStep : P → P)
    (st : StudentState P) (states qvalues : List (List ℝ)) :
    (ℝ × ℝ) × StudentState P :=
  let pred := dqnNet st.params states
  let target := distillTarget (st.tau : ℝ) qvalues
  let lsp := pred.map logSoftmaxList
  let loss := klDivSum lsp target
  ((loss, matMean pred),
   { st with params := optimStep st.params, optimSteps := st.optimSteps + 1 })

/-- A concrete agent in pure collection configuration, used to evaluate the
select/step model on explicit inputs. -/
def sampleAgent : DistAgent Nat Nat Nat Nat Nat Nat :=
  { teacher := false, student := false, test := true,
    curr_state := 0,
    preprocessState := fun s => s + 100,
    dqnNet := fun s => 2 * s,
    argmaxQ := fun q => q + 1,
    sampleAction := 42,
    baseSelect := fun s => s,
    envState := 0,
    envStepF := fun e a => (e + a, (e + a + 1, 5, false, 0)),
    baseStepF := fun e a => (e + 2 * a, (e + a + 3, 7, true, 1)),
    memory := [],
    i_episode := 0, save_count := 0, rawSaved := [], tau := 1 / 100 }

/-! ## Theorems -/

theorem collectEpisode_eq (B l : Nat) : ∀ s : CollectState, s.idx ≤ B →
    collectEpisode B l s =
      { idx := min B (s.idx + l),
        samples := s.samples + (min B (s.idx + l) - s.idx),
        resets := s.resets } := by
  induction l with
  | zero =>
    rintro ⟨i, smp, r⟩ h
    dsimp only at h
    dsimp only [collectEpisode]
    simp only [CollectState.mk.injEq]
    refine ⟨by omega, by omega, trivial⟩
  | succ l ih =>
    rintro ⟨i, smp, r⟩ h
    dsimp only at h
    dsimp only [collectEpisode]
    by_cases hib : i = B
    · rw [if_pos hib]
      simp only [CollectState.mk.injEq]
      refine ⟨by omega, by omega, trivial⟩
    · rw [if_neg hib]
      rw [ih ⟨i + 1, smp + 1, r⟩ (show i + 1 ≤ B by omega)]
      dsimp only
      simp only [CollectState.mk.injEq]
      refine ⟨by omega, by omega, trivial⟩

theorem collectEpisodes_eq (B : Nat) (ls : List Nat) : ∀ s : CollectState,
    s.idx ≤ B →
    (collectEpisodes B ls s).idx = min B (s.idx + ls.sum) ∧
    (collectEpisodes B ls s).samples =
      s.samples + (min B (s.idx + ls.sum) - s.idx) := by
  induction ls with
  | nil =>
    rintro ⟨i, smp, r⟩ h
    dsimp only at h
    dsimp only [collectEpisodes]
    simp only [List.sum_nil]
    refine ⟨by omega, by omega⟩
  | cons l ls ih =>
    rintro ⟨i, smp, r⟩ h
    dsimp only at h
    dsimp only [collectEpisodes]
    rw [collectEpisode_eq B l ⟨i, smp, r + 1⟩ (show i ≤ B from h)]
    dsimp only
    simp only [List.sum_cons]
    by_cases hm : min B (i + l) = B
    · rw [if_pos hm]
      dsimp only
      refine ⟨by omega, by omega⟩
    · rw [if_neg hm]
      obtain ⟨h1, h2⟩ := ih ⟨min B (i + l), smp + (min B (i + l) - i), r + 1⟩
        (Nat.min_le_left _ _)
      dsimp only at h1 h2
      rw [h1, h2]
      refine ⟨by omega, by omega⟩

theorem collectEpisodes_stop (B : Nat) (pre post : List Nat) (s : CollectState)
    (hne : pre ≠ []) (h : (collectEpisodes B pre s).idx = B) :
    collectEpisodes B (pre ++ post) s = collectEpisodes B pre s := by
  revert hne h
  induction pre generalizing s with
  | nil => intro hne _; exact absurd rfl hne
  | cons l rest ih =>
    intro _ h
    simp only [collectEpisodes, List.cons_append] at h ⊢
    by_cases h1 : (collectEpisode B l { s with resets := s.resets + 1 }).idx = B
    · simp only [if_pos h1]
    · simp only [if_neg h1] at h ⊢
      cases rest with
      | nil => exact absurd h h1
      | cons r rs =>
        exact ih (collectEpisode B l { s with resets := s.resets + 1 }) (by simp) h

/-- Claim C1: a completed collection run appends exactly
min(buffer_size, total environment steps across all configured episodes)
Transition Samples, and the run stops as soon as the buffer fill index
reaches buffer_size, even in the middle of an episode: episodes configured
after the one that filled the buffer change nothing. -/
theorem collection_samples_eq_min (B : Nat) (epLens : List Nat) :
    (collectRun epLens B).samples = min B epLens.sum ∧
    ∀ pre post : List Nat, pre ≠ [] → (collectRun pre B).idx = B →
      collectRun (pre ++ post) B = collectRun pre B := by
  constructor
  · have h2 := (collectEpisodes_eq B epLens { idx := 0, samples := 0, resets := 0 }
      (Nat.zero_le B)).2
    dsimp only at h2
    simp only [collectRun]
    omega
  · intro pre post hne h
    exact collectEpisodes_stop B pre post _ hne h

/-- Witness for collection_samples_eq_min: with capacity 3 and episodes of
lengths 2 and 2 the buffer fills during the second episode, and a further
configured episode of length 5 changes nothing. -/
theorem collection_samples_eq_min_witness :
    (collectRun [2, 2, 5] 3).samples = min 3 (List.sum [2, 2, 5]) ∧
    collectRun ([2, 2] ++ [5]) 3 = collectRun [2, 2] 3 :=
  ⟨(collection_samples_eq_min 3 [2, 2, 5]).1,
   (collection_samples_eq_min 3 [2, 2]).2 [2, 2] [5] (by decide) (by decide)⟩

theorem foldl_trainStepFold (k : Nat) (l : List Nat) : ∀ tr : TrainTrace,
    l.foldl (trainStepFold k) tr =
      { resets := tr.resets + (l.filter (fun s => s % k = 0)).length,
        checkpoints := tr.checkpoints ++ l.filter (fun s => s % k = 0),
        updates := tr.updates + l.length } := by
  induction l with
  | nil =>
    rintro ⟨c, cp, u⟩
    simp
  | cons a l ih =>
    rintro ⟨c, cp, u⟩
    rw [List.foldl_cons, ih]
    by_cases ha : a % k = 0
    · simp only [trainStepFold, List.filter_cons, ha]
      simp [TrainTrace.mk.injEq]
      omega
    · simp only [trainStepFold, List.filter_cons, ha]
      simp [TrainTrace.mk.injEq, ha]
      omega

theorem filter_mod_block (k e : Nat) (hk : 1 ≤ k) :
    ((List.range k).map (fun x => k * e + x)).filter (fun s => s % k = 0) =
      [k * e] := by
  rw [List.filter_map]
  have hcg : ∀ x ∈ List.range k,
      ((fun s => decide (s % k = 0)) ∘ (fun x => k * e + x)) x =
        decide (x = 0) := by
    intro x hx
    have hxk : x < k := List.mem_range.mp hx
    have hmod : (k * e + x) % k = x := by
      rw [Nat.mul_add_mod]
      exact Nat.mod_eq_of_lt hxk
    simp [hmod]
  rw [List.filter_congr hcg]
  obtain ⟨j, rfl⟩ : ∃ j, k = j + 1 := ⟨k - 1, by omega⟩
  rw [List.range_succ_eq_map]
  rw [List.filter_cons]
  have hnil : ((List.range j).map Nat.succ).filter (fun x => decide (x = 0)) =
      [] := by
    rw [List.filter_eq_nil_iff]
    intro a ha
    obtain ⟨b, _, rfl⟩ := List.mem_map.mp ha
    simp
  simp [hnil]

theorem length_filter_mod (k e : Nat) (hk : 1 ≤ k) :
    ((List.range (k * e)).filter (fun s => s % k = 0)).length = e := by
  induction e with
  | zero => simp
  | succ e ih =>
    rw [Nat.mul_succ, List.range_add, List.filter_append, List.length_append,
      ih, filter_mod_block k e hk]
    simp

/-- The counterexample input of claim C2: with buffer_size 4, batch_size 2
and 3 epochs the student training loop calls reset_dataloader 4 times, not 3:
once before the loop and once at each of the step indices 0, 2 and 4. -/
theorem student_train_resets_cex :
    (studentTrainLoop 4 2 3).map TrainTrace.resets = some 4 ∧ (4 : Nat) ≠ 3 := by
  constructor
  · rfl
  · decide

/-- Claim C2 (amended): for every completing student training run the loop
performs exactly epochs + 1 full dataloader resets: one before the loop
starts, plus one at each of the epochs step indices divisible by
iterations_per_epoch (step 0 included). -/
theorem student_train_resets (bufferSize batchSize epochs : Nat)
    (hb : 1 ≤ batchSize) (hbb : batchSize ≤ bufferSize) (he : 1 ≤ epochs) :
    (studentTrainLoop bufferSize batchSize epochs).map TrainTrace.resets =
      some (epochs + 1) := by
  have hk : 1 ≤ bufferSize / batchSize := (Nat.one_le_div_iff (by omega)).mpr hbb
  have hT : bufferSize / batchSize * epochs ≠ 0 := by positivity
  unfold studentTrainLoop
  rw [if_neg (by omega), if_neg (by omega), if_neg hT,
    foldl_trainStepFold (bufferSize / batchSize)
      (List.range (bufferSize / batchSize * epochs))]
  simp [length_filter_mod (bufferSize / batchSize) epochs hk]
  omega

/-- Witness for student_train_resets at buffer_size 4, batch_size 2,
epochs 3. -/
theorem student_train_resets_witness :
    (studentTrainLoop 4 2 3).map TrainTrace.resets = some (3 + 1) :=
  student_train_resets 4 2 3 (by decide) (by decide) (by decide)

/-- Claim C3: the student training loop performs
train_steps = (buffer_size / batch_size) * epochs update steps, writes a
checkpoint at exactly the step indices divisible by
iterations_per_epoch = buffer_size / batch_size, and writes one final
checkpoint after the last step unconditionally; with buffer_size 4,
batch_size 2 and 3 epochs the run does 6 steps and checkpoints at 0, 2, 4
and finally 5. -/
theorem student_train_checkpoints (bufferSize batchSize epochs : Nat)
    (hb : 1 ≤ batchSize) (hbb : batchSize ≤ bufferSize) (he : 1 ≤ epochs) :
    (studentTrainLoop bufferSize batchSize epochs).map TrainTrace.checkpoints =
      some ((List.range (bufferSize / batchSize * epochs)).filter
              (fun s => s % (bufferSize / batchSize) = 0) ++
            [bufferSize / batchSize * epochs - 1]) ∧
    (studentTrainLoop bufferSize batchSize epochs).map TrainTrace.updates =
      some (bufferSize / batchSize * epochs) ∧
    studentTrainLoop 4 2 3 =
      some { resets := 4, checkpoints := [0, 2, 4, 5], updates := 6 } := by
  have hT : bufferSize / batchSize * epochs ≠ 0 := by
    have hk : 1 ≤ bufferSize / batchSize := (Nat.one_le_div_iff (by omega)).mpr hbb
    positivity
  refine ⟨?_, ?_, by decide⟩ <;>
  · unfold studentTrainLoop
    rw [if_neg (by omega), if_neg (by omega), if_neg hT,
      foldl_trainStepFold (bufferSize / batchSize)
        (List.range (bufferSize / batchSize * epochs))]
    simp

/-- Witness for student_train_checkpoints at buffer_size 4, batch_size 2,
epochs 3. -/
theorem student_train_checkpoints_witness :
    (studentTrainLoop 4 2 3).map TrainTrace.checkpoints =
      some ((List.range (4 / 2 * 3)).filter (fun s => s % (4 / 2) = 0) ++
            [4 / 2 * 3 - 1]) :=
  (student_train_checkpoints 4 2 3 (by decide) (by decide) (by decide)).1

/-- Claim C4: _initialize fails fast with a configuration error iff the four
mode flags do not sum to exactly one, and on failure no directory has been
created (the assert precedes every directory-creation side effect). -/
theorem init_mode_exclusive (a : DistillArgs) (p1 p2 p3 : String) :
    ((initDistillation a p1 p2 p3).2 = Except.error () ↔ modeCount a ≠ 1) ∧
    ((initDistillation a p1 p2 p3).2 = Except.error () →
      (initDistillation a p1 p2 p3).1 = []) := by
  by_cases h : modeCount a = 1
  · have hne : ¬ modeCount a ≠ 1 := by omega
    have hok : (initDistillation a p1 p2 p3).2 ≠ Except.error () := by
      unfold initDistillation
      rw [if_neg hne]
      split
      · split
        · simp
        · simp
      · simp
    exact ⟨by simp [hok, h], fun hc => absurd hc hok⟩
  · have hne : modeCount a ≠ 1 := h
    unfold initDistillation
    rw [if_pos hne]
    simp [hne]

/-- Witness for init_mode_exclusive: with both teacher and student set the
initializer fails immediately and creates no directory. -/
theorem init_mode_exclusive_witness :
    ((initDistillation
        { teacher := true, student := true, add_expert_q := false, test := false,
          distillation_buffer_path := none } "a" "b" "c").2 = Except.error ()) ∧
    ((initDistillation
        { teacher := true, student := true, add_expert_q := false, test := false,
          distillation_buffer_path := none } "a" "b" "c").1 = []) := by
  have h := init_mode_exclusive
    { teacher := true, student := true, add_expert_q := false, test := false,
      distillation_buffer_path := none } "a" "b" "c"
  have he := h.1.mpr (by decide)
  exact ⟨he, h.2 he⟩

/-- Claim C5: in collection mode select_action caches exactly the state passed
in, returns the q-vector the network computes for that state in that same
call, and the subsequent step appends exactly that (state, q-vector) pair to
the buffer. -/
theorem select_action_fresh_q {S Q A E I R : Type} (ag : DistAgent S Q A E I R)
    (s : S) (draw : Bool) (act : A)
    (hT : ag.teacher = false) (hS : ag.student = false) (hTest : ag.test = true) :
    (selectActionD ag s true draw).2 =
      SelectOut.withQ (ag.argmaxQ (ag.dqnNet (ag.preprocessState s)))
        (ag.dqnNet (ag.preprocessState s)) ∧
    (selectActionD ag s true draw).1.curr_state = s ∧
    (stepD (selectActionD ag s true draw).1 act
        (ag.dqnNet (ag.preprocessState s))).1.memory =
      ag.memory ++ [(s, ag.dqnNet (ag.preprocessState s))] := by
  simp [selectActionD, stepD, hT, hS, hTest]

/-- Witness for select_action_fresh_q on the concrete collection agent. -/
theorem select_action_fresh_q_witness :
    (selectActionD sampleAgent 7 true false).2 =
      SelectOut.withQ
        (sampleAgent.argmaxQ (sampleAgent.dqnNet (sampleAgent.preprocessState 7)))
        (sampleAgent.dqnNet (sampleAgent.preprocessState 7)) ∧
    (selectActionD sampleAgent 7 true false).1.curr_state = 7 ∧
    (stepD (selectActionD sampleAgent 7 true false).1 9
        (sampleAgent.dqnNet (sampleAgent.preprocessState 7))).1.memory =
      sampleAgent.memory ++
        [(7, sampleAgent.dqnNet (sampleAgent.preprocessState 7))] :=
  select_action_fresh_q sampleAgent 7 false 9 rfl rfl rfl

/-- Claim C8: in the pure collection configuration, step steps the
environment, appends exactly one Transition Sample (the cached state paired
with the passed q-values) and returns the environment transition tuple
unchanged; in every other flag configuration it delegates to DQNAgent.step
and leaves the buffer untouched. -/
theorem step_frame {S Q A E I R : Type} (ag : DistAgent S Q A E I R)
    (act : A) (q : Q) :
    ((ag.test && !ag.teacher && !ag.student) = true →
      stepD ag act q =
        ({ ag with envState := (ag.envStepF ag.envState act).1,
                   memory := ag.memory ++ [(ag.curr_state, q)] },
         (ag.envStepF ag.envState act).2)) ∧
    ((ag.test && !ag.teacher && !ag.student) = false →
      stepD ag act q =
        ({ ag with envState := (ag.baseStepF ag.envState act).1 },
         (ag.baseStepF ag.envState act).2)) := by
  constructor <;> intro h <;> simp [stepD, h]

/-- Witness for step_frame: the collection-mode branch on the concrete
collection agent, and the delegating branch on the same agent with the test
flag cleared. -/
theorem step_frame_witness :
    stepD sampleAgent 9 3 =
      ({ sampleAgent with
          envState := (sampleAgent.envStepF sampleAgent.envState 9).1,
          memory := sampleAgent.memory ++ [(sampleAgent.curr_state, 3)] },
       (sampleAgent.envStepF sampleAgent.envState 9).2) ∧
    stepD { sampleAgent with test := false } 9 3 =
      ({ sampleAgent with
          test := false,
          envState := (sampleAgent.baseStepF sampleAgent.envState 9).1 },
       (sampleAgent.baseStepF sampleAgent.envState 9).2) :=
  ⟨(step_frame sampleAgent 9 3).1 rfl,
   (step_frame { sampleAgent with test := false } 9 3).2 rfl⟩

theorem augmentPass_aux {N St Qv : Type} [DecidableEq N] (dqn : St → Qv) :
    ∀ (inputs : List (N × St)) (acc : List (N × (St × Qv))),
      (inputs.map Prod.fst).Nodup →
      (∀ n ∈ acc.map Prod.fst, n ∉ inputs.map Prod.fst) →
      inputs.foldl (fun fs p => writeFile fs p.1 (p.2, dqn p.2)) acc =
        acc ++ inputs.map (fun p => (p.1, (p.2, dqn p.2))) := by
  intro inputs
  induction inputs with
  | nil => intro acc _ _; simp
  | cons p rest ih =>
    intro acc hnd hdisj
    have hcons : p.1 ∉ rest.map Prod.fst ∧ (rest.map Prod.fst).Nodup := by
      rw [List.map_cons, List.nodup_cons] at hnd
      exact hnd
    rw [List.foldl_cons]
    have hmem : p.1 ∉ acc.map Prod.fst := fun hc => hdisj p.1 hc (by simp)
    have hw : writeFile acc p.1 (p.2, dqn p.2) = acc ++ [(p.1, (p.2, dqn p.2))] := by
      unfold writeFile
      rw [if_neg hmem]
    rw [hw, ih (acc ++ [(p.1, (p.2, dqn p.2))]) hcons.2]
    · simp
    · intro n hn
      rw [List.map_append, List.mem_append] at hn
      rcases hn with h1 | h2
      · intro hr
        exact hdisj n h1 (by simp [hr])
      · simp only [List.map_cons, List.map_nil, List.mem_singleton] at h2
        intro hr
        exact hcons.1 (h2 ▸ hr)

/-- The counterexample input of claim C9: two source roots whose episode
subdirectories both contain a file with base name 0 yield two enumerated
inputs but a single output file (the second write overwrites the first). -/
theorem augment_one_file_per_input_cex :
    (augmentPass (fun s => s + 1)
        (enumerateRecords ([[[(0, 10)]], [[(0, 20)]]] :
          List (List (List (Nat × Nat)))))).length = 1 ∧
    (enumerateRecords ([[[(0, 10)]], [[(0, 20)]]] :
        List (List (List (Nat × Nat))))).length = 2 ∧
    (1 : Nat) ≠ 2 := by
  refine ⟨rfl, rfl, by decide⟩

/-- Claim C9 (amended): every enumerated Raw State Record causes exactly one
write, keyed by its base file name and pairing its unchanged state with the
teacher q-vector; when the base file names of the enumerated inputs are
pairwise distinct, the output directory holds exactly one file per input,
with matching base name and the state field identical to the input's.
Inputs sharing a base name collapse to a single output file (last write
wins). -/
theorem augment_one_file_per_input {N St Qv : Type} [DecidableEq N]
    (dqn : St → Qv) (inputs : List (N × St))
    (hnd : (inputs.map Prod.fst).Nodup) :
    augmentPass dqn inputs = inputs.map (fun p => (p.1, (p.2, dqn p.2))) := by
  have h := augmentPass_aux dqn inputs [] hnd (by simp)
  simpa [augmentPass] using h

/-- Witness for augment_one_file_per_input on two distinctly named records. -/
theorem augment_one_file_per_input_witness :
    augmentPass (fun s => s + 1) ([(0, 10), (1, 20)] : List (Nat × Nat)) =
      [(0, (10, 11)), (1, (20, 21))] :=
  (augment_one_file_per_input (fun s => s + 1) [(0, 10), (1, 20)]
    (by decide)).trans (by decide)

/-- Claim C10: in student and test modes softmax_tau is set by _initialize to
the constant 0.01 (1/100) whatever every configuration option is, and no
operation of the agent (update_distillation, select_action, step) changes it
afterwards. -/
theorem softmax_tau_constant :
    (∀ (a : DistillArgs) (p1 p2 p3 : String) (eff : InitEffects),
        (initDistillation a p1 p2 p3).2 = Except.ok eff →
        (a.student || a.test) = true → eff.tau = some (1 / 100)) ∧
    (∀ (P : Type) (dqnNet : P → List (List ℝ) → List (List ℝ))
        (optimStep : P → P) (st : StudentState P)
        (states qvalues : List (List ℝ)),
        (updateDistillation dqnNet optimStep st states qvalues).2.tau = st.tau) ∧
    (∀ (S Q A E I R : Type) (ag : DistAgent S Q A E I R) (s : S) (it dr : Bool),
        (selectActionD ag s it dr).1.tau = ag.tau) ∧
    (∀ (S Q A E I R : Type) (ag : DistAgent S Q A E I R) (act : A) (q : Q),
        (stepD ag act q).1.tau = ag.tau) := by
  refine ⟨?_, ?_, ?_, ?_⟩
  · intro a p1 p2 p3 eff hok hst
    unfold initDistillation at hok
    by_cases h : modeCount a ≠ 1
    · rw [if_pos h] at hok
      exact absurd hok (by simp)
    · rw [if_neg h, if_pos hst] at hok
      by_cases hs : a.student = true
      · rw [if_pos hs] at hok
        simp only [Prod.snd] at hok
        injection hok with h2
        rw [← h2]
      · rw [if_neg hs] at hok
        simp only [Prod.snd] at hok
        injection hok with h2
        rw [← h2]
  · intro P dqnNet optimStep st states qvalues
    rfl
  · intro S Q A E I R ag s it dr
    unfold selectActionD
    by_cases h1 : ag.teacher
    · rw [if_pos h1]
      by_cases h2 : it
      · rw [if_pos h2]
      · rw [if_neg h2]
    · rw [if_neg h1]
  · intro S Q A E I R ag act q
    unfold stepD
    by_cases h1 : (ag.test && !ag.teacher && !ag.student) = true
    · rw [if_pos h1]
    · rw [if_neg h1]

/-- Witness for softmax_tau_constant: the student-mode initialization indeed
carries tau = 1/100. -/
theorem softmax_tau_constant_witness :
    ({ tau := some (1 / 100), bufferPath := some "p",
       saveDistillationDir := none, saveCount := none } : InitEffects).tau =
      some (1 / 100) :=
  softmax_tau_constant.1
    { teacher := false, student := true, add_expert_q := false, test := false,
      distillation_buffer_path := none } "p" "q" "r"
    { tau := some (1 / 100), bufferPath := some "p",
      saveDistillationDir := none, saveCount := none } rfl rfl

/-- Claim C6: update_distillation computes the student prediction for the
batch, the row-wise softmax(q_values / softmax_tau) target, the KL divergence
between the log-softmax of the prediction and that target with sum (not mean)
reduction, performs exactly one optimizer step, and returns the scalar loss
together with the mean predicted q-value; the target depends only on the
buffered q-values and the temperature, never on the student parameters, so no
gradient flows through the teacher-side branch. -/
theorem update_distillation_spec {P : Type}
    (dqnNet : P → List (List ℝ) → List (List ℝ)) (optimStep : P → P)
    (st : StudentState P) (states qvalues : List (List ℝ)) :
    (updateDistillation dqnNet optimStep st states qvalues).1.1 =
      klDivSum ((dqnNet st.params states).map logSoftmaxList)
        (distillTarget (st.tau : ℝ) qvalues) ∧
    (updateDistillation dqnNet optimStep st states qvalues).1.2 =
      matMean (dqnNet st.params states) ∧
    (updateDistillation dqnNet optimStep st states qvalues).2.optimSteps =
      st.optimSteps + 1 ∧
    (updateDistillation dqnNet optimStep st states qvalues).2.params =
      optimStep st.params ∧
    ∀ p : P,
      (updateDistillation dqnNet optimStep { st with params := p } states
          qvalues).1.1 =
        klDivSum ((dqnNet p states).map logSoftmaxList)
          (distillTarget (st.tau : ℝ) qvalues) :=
  ⟨rfl, rfl, rfl, rfl, fun _ => rfl⟩

theorem softmaxList_map_add (l : List ℝ) (d : ℝ) :
    softmaxList (l.map (fun x => x + d)) = softmaxList l := by
  unfold softmaxList
  have hsum : ((l.map (fun x => x + d)).map Real.exp).sum =
      (l.map Real.exp).sum * Real.exp d := by
    rw [List.map_map]
    have hfun : (Real.exp ∘ fun x => x + d) =
        fun x => Real.exp x * Real.exp d := by
      funext x
      simp [Function.comp, Real.exp_add]
    rw [hfun, List.sum_map_mul_right]
  rw [hsum, List.map_map]
  congr 1
  funext x
  simp only [Function.comp]
  rw [Real.exp_add]
  exact mul_div_mul_right (Real.exp x) (l.map Real.exp).sum (Real.exp_ne_zero d)

theorem distillTarget_shift (tau c : ℝ) (qv : List (List ℝ)) :
    distillTarget tau (qv.map (fun row => row.map (fun x => x + c))) =
      distillTarget tau qv := by
  unfold distillTarget
  rw [List.map_map]
  congr 1
  funext row
  simp only [Function.comp]
  have h1 : (row.map (fun x => x + c)).map (fun x => x / tau) =
      (row.map (fun x => x / tau)).map (fun x => x + c / tau) := by
    rw [List.map_map, List.map_map]
    congr 1
    funext x
    simp [Function.comp, add_div]
  rw [h1, softmaxList_map_add]

theorem distillLoss_two_action (x : ℝ) :
    distillLoss [[0, 0]] [[0, x]] 1 =
      Real.log 2 - Real.binEntropy (Real.exp x / (1 + Real.exp x)) := by
  have hS : (0 : ℝ) < 1 + Real.exp x := by positivity
  have h1s : (1 : ℝ) / (1 + Real.exp x) = 1 - Real.exp x / (1 + Real.exp x) := by
    field_simp
  unfold distillLoss distillTarget softmaxList logSoftmaxList klDivSum
  simp only [List.map_cons, List.map_nil, List.sum_cons, List.sum_nil,
    Real.exp_zero, add_zero, zero_sub, div_one, List.zipWith_cons_cons,
    List.zipWith_nil_left, one_add_one_eq_two]
  rw [Real.binEntropy_eq_negMulLog_add_negMulLog_one_sub]
  simp only [Real.negMulLog]
  rw [h1s]
  ring

theorem distillLoss_tau_half (x : ℝ) :
    distillLoss [[0, 0]] [[0, x]] (1 / 2) = distillLoss [[0, 0]] [[0, 2 * x]] 1 := by
  unfold distillLoss distillTarget
  norm_num
  rw [show x / (1 / 2) = 2 * x from by ring]

theorem distillLoss_tau_ne :
    distillLoss [[0, 0]] [[0, 1]] 1 ≠ distillLoss [[0, 0]] [[0, 1]] (1 / 2) := by
  have he1 : (1 : ℝ) < Real.exp 1 := by
    rw [show (1 : ℝ) = Real.exp 0 from Real.exp_zero.symm]
    exact Real.exp_lt_exp.mpr (by norm_num)
  have he2 : Real.exp 1 < Real.exp 2 := Real.exp_lt_exp.mpr (by norm_num)
  have hp1 : (0 : ℝ) < 1 + Real.exp 1 := by positivity
  have hp2 : (0 : ℝ) < 1 + Real.exp 2 := by positivity
  have hs1mem : Real.exp 1 / (1 + Real.exp 1) ∈ Set.Icc (2⁻¹ : ℝ) 1 := by
    constructor
    · rw [le_div_iff₀ hp1]
      nlinarith
    · rw [div_le_one hp1]
      linarith
  have hs2mem : Real.exp 2 / (1 + Real.exp 2) ∈ Set.Icc (2⁻¹ : ℝ) 1 := by
    constructor
    · rw [le_div_iff₀ hp2]
      nlinarith
    · rw [div_le_one hp2]
      linarith
  have hlt : Real.exp 1 / (1 + Real.exp 1) < Real.exp 2 / (1 + Real.exp 2) := by
    rw [div_lt_div_iff₀ hp1 hp2]
    nlinarith
  have hent := Real.binEntropy_strictAntiOn hs1mem hs2mem hlt
  rw [distillLoss_two_action 1, distillLoss_tau_half 1]
  rw [show (2 : ℝ) * 1 = 2 from by norm_num]
  rw [distillLoss_two_action 2]
  intro hc
  have : Real.binEntropy (Real.exp 1 / (1 + Real.exp 1)) =
      Real.binEntropy (Real.exp 2 / (1 + Real.exp 2)) := by linarith
  linarith

/-- Claim C7: for fixed student predictions, the distillation loss is
unchanged when every teacher q-value is shifted by the same additive
constant, but for the fixed inputs pred = [[0,0]] and teacher q-values
[[0,1]] the loss at softmax_tau = 1 strictly differs from the loss at
softmax_tau = 1/2. -/
theorem distill_loss_shift_invariant_tau_sensitive
    (pred qv : List (List ℝ)) (tau c : ℝ) :
    distillLoss pred (qv.map (fun row => row.map (fun x => x + c))) tau =
      distillLoss pred qv tau ∧
    distillLoss [[0, 0]] [[0, 1]] 1 ≠ distillLoss [[0, 0]] [[0, 1]] (1 / 2) := by
  constructor
  · unfold distillLoss
    rw [distillTarget_shift]
  · exact distillLoss_tau_ne

end Distillation
